import Mathlib

/-
Verification development for the 313flight backend.

The repository ships two near-duplicate drafts of the advisor module
(backend/aiAdvisor.js contains both, one after the other) and two drafts of
the server (backend/server.js and the draft in src/unnamed/part_004).  The
first advisor draft is embedded in namespace Advisor1, the second in
namespace Advisor2; the deduplication, history and seasonal-update logic of
the server drafts is embedded at top level.

Modelling conventions:
- finite JavaScript numbers are modelled as rationals; where the code
  explicitly guards on Number.isFinite (dedupeFlights), prices are modelled
  by the JNum type which also carries NaN and the two infinities with IEEE
  comparison semantics;
- SQL statements are modelled by their row-level semantics on the table
  state (filtering, ordering, upserting the addressed row);
- human-readable reason / explanation / label strings carried by the
  results are omitted: no claim mentions them;
- Math.round is modelled by jround (floor of x + 1/2, its semantics on
  finite numbers).
-/

/-- Recommendation actions used throughout the advisor code (the name
Action itself is taken by Mathlib). -/
inductive BWAction where
  | BOOK
  | WAIT
  | NO_SIGNAL
deriving DecidableEq, Repr

/-- Trend labels of the first advisor draft's learning layer. -/
inductive Trend where
  | FLAT
  | UP
  | DOWN
deriving DecidableEq, Repr

/-- An action/confidence pair: the shape of heuristic results and of the
second draft's learning and blended results (reason strings omitted). -/
structure Advice where
  action : BWAction
  confidence : Int
deriving DecidableEq, Repr

/-- Result shape of the first draft's learningAdvice (reason string
omitted). -/
structure LearnResult where
  hasHistory : Bool
  points : Int
  action : BWAction
  confidence : Int
  trend : Trend
deriving DecidableEq, Repr

/-- One row of the seasonal_stats table.  lastUpdated is a day number used
to model the SQL freshness window and the retention delete. -/
structure SeasonalStat where
  total_points : Int
  far_sum : ℚ
  far_count : Int
  near_sum : ℚ
  near_count : Int
  lastUpdated : Int
deriving DecidableEq, Repr

/-- Math.round on a finite number: floor of x + 1/2 (halves round toward
positive infinity, matching JavaScript). -/
def jround (q : ℚ) : Int := ⌊q + 1/2⌋

/-- Number.isFinite applied to a value already modelled as a rational.
Rationals model exactly the finite JavaScript numbers, so the check is
constantly true; it is kept so the guard structure of the source is
visible. -/
def numIsFinite (_ : ℚ) : Bool := true

namespace Advisor1

/-- heuristicAdvice of the first advisor draft (aiAdvisor.js lines 70-113).
Every branch of the source overwrites the initial NO_SIGNAL/50 default, so
the default never escapes; the if-chain below is the source's chain. -/
def heuristicAdvice (daysUntilDeparture : Int) (minPrice avgPrice maxPrice : ℚ) :
    Advice :=
  let spread := maxPrice - minPrice
  let isLowRelative := avgPrice ≤ minPrice * (11/10)
  if daysUntilDeparture ≤ 7 then
    ⟨BWAction.BOOK, if isLowRelative then 85 else 75⟩
  else if daysUntilDeparture > 30 then
    if avgPrice > minPrice * (13/10) then ⟨BWAction.WAIT, 70⟩
    else ⟨BWAction.BOOK, 60⟩
  else
    if spread < avgPrice * (1/10) then ⟨BWAction.BOOK, 65⟩
    else ⟨BWAction.WAIT, 55⟩

/-- learningAdvice of the first advisor draft (aiAdvisor.js lines 125-244).
The SELECT on seasonal_stats (no freshness condition in this draft) is
modelled by passing the matching rows directly; a database error is the
error case of the Except argument and lands in the catch branch. -/
def learningAdvice (dbRows : Except String (List SeasonalStat)) : LearnResult :=
  match dbRows with
  | .error _ => ⟨false, 0, BWAction.NO_SIGNAL, 40, Trend.FLAT⟩
  | .ok rows =>
    match rows with
    | [] => ⟨false, 0, BWAction.NO_SIGNAL, 40, Trend.FLAT⟩
    | stat :: _ =>
      if stat.total_points < 6 ∨ stat.far_count < 2 ∨ stat.near_count < 2 then
        ⟨true, stat.total_points, BWAction.NO_SIGNAL, 45, Trend.FLAT⟩
      else
        let farAvg := stat.far_sum / (stat.far_count : ℚ)
        let nearAvg := stat.near_sum / (stat.near_count : ℚ)
        if numIsFinite farAvg = false ∨ numIsFinite nearAvg = false ∨ farAvg ≤ 0 then
          ⟨true, stat.total_points, BWAction.NO_SIGNAL, 45, Trend.FLAT⟩
        else
          let relChange := (nearAvg - farAvg) / farAvg
          if |relChange| < 1/20 then
            ⟨true, stat.total_points, BWAction.NO_SIGNAL, 50, Trend.FLAT⟩
          else if relChange > 1/10 then
            ⟨true, stat.total_points, BWAction.BOOK, 75, Trend.UP⟩
          else if relChange < -(1/10) then
            ⟨true, stat.total_points, BWAction.WAIT, 75, Trend.DOWN⟩
          else if relChange > 0 then
            ⟨true, stat.total_points, BWAction.BOOK, 65, Trend.UP⟩
          else
            ⟨true, stat.total_points, BWAction.WAIT, 65, Trend.DOWN⟩

/-- The blending section of blendedAdvice in the first advisor draft
(aiAdvisor.js lines 288-345), as a function of the two sub-results it
combines (label and explanation strings omitted). -/
def blendDecision (heuristic : Advice) (learning : LearnResult) : Advice :=
  if heuristic.action = BWAction.BOOK ∧ learning.action = BWAction.BOOK then
    ⟨BWAction.BOOK,
      min 95 (jround (((heuristic.confidence : ℚ) + (learning.confidence : ℚ)) / 2 + 10))⟩
  else if heuristic.action = BWAction.WAIT ∧ learning.action = BWAction.WAIT then
    ⟨BWAction.WAIT,
      min 90 (jround (((heuristic.confidence : ℚ) + (learning.confidence : ℚ)) / 2 + 5))⟩
  else
    let finalAction :=
      if heuristic.action ≠ BWAction.NO_SIGNAL then heuristic.action else learning.action
    if heuristic.action ≠ learning.action ∧ learning.hasHistory then
      ⟨finalAction, jround (((heuristic.confidence : ℚ) + (learning.confidence : ℚ)) / 2 - 10)⟩
    else
      ⟨finalAction, jround (((heuristic.confidence : ℚ) + (learning.confidence : ℚ)) / 2)⟩

end Advisor1

namespace Advisor2

/-- learningAdvice of the second advisor draft (aiAdvisor.js lines 633-705).
The SELECT keeps only rows whose last_updated lies within 180 days of NOW();
this freshness condition is modelled by the filter on the now parameter.
Note this draft checks far_count/near_count but not total_points. -/
def learningAdvice (now : Int) (dbRows : Except String (List SeasonalStat)) :
    Advice :=
  match dbRows with
  | .error _ => ⟨BWAction.NO_SIGNAL, 0⟩
  | .ok rows =>
    match rows.filter (fun s => now - s.lastUpdated ≤ 180) with
    | [] => ⟨BWAction.NO_SIGNAL, 0⟩
    | stats :: _ =>
      if stats.far_count < 2 ∨ stats.near_count < 2 then ⟨BWAction.NO_SIGNAL, 0⟩
      else
        let farAvg := stats.far_sum / (stats.far_count : ℚ)
        let nearAvg := stats.near_sum / (stats.near_count : ℚ)
        let change := (nearAvg - farAvg) / farAvg
        if |change| < 1/20 then ⟨BWAction.NO_SIGNAL, 40⟩
        else if change > 2/25 then ⟨BWAction.BOOK, 75⟩
        else ⟨BWAction.WAIT, 70⟩

/-- The blending section of blendedAdvice in the second advisor draft
(aiAdvisor.js lines 733-775), as a function of the two sub-results it
combines.  A confidence of 0 is falsy in JavaScript, hence the 60
fallback on the two single-signal branches. -/
def blendDecision (heuristic seasonal : Advice) : Advice :=
  if seasonal.action ≠ BWAction.NO_SIGNAL ∧ heuristic.action ≠ BWAction.NO_SIGNAL ∧
      seasonal.action = heuristic.action then
    ⟨heuristic.action, min 95 (max heuristic.confidence seasonal.confidence + 5)⟩
  else if seasonal.action ≠ BWAction.NO_SIGNAL ∧ heuristic.action = BWAction.NO_SIGNAL then
    ⟨seasonal.action, if seasonal.confidence = 0 then 60 else seasonal.confidence⟩
  else if heuristic.action ≠ BWAction.NO_SIGNAL ∧ seasonal.action = BWAction.NO_SIGNAL then
    ⟨heuristic.action, if heuristic.confidence = 0 then 60 else heuristic.confidence⟩
  else
    ⟨BWAction.NO_SIGNAL, 40⟩

end Advisor2

/-- JavaScript number values as they reach the price comparisons of
dedupeFlights: finite numbers are rationals, NaN and the two infinities
are explicit constructors. -/
inductive JNum where
  | fin (q : ℚ)
  | nan
  | posInf
  | negInf
deriving DecidableEq, Repr

/-- Number.isFinite on a JNum. -/
def JNum.isFinite : JNum → Bool
  | .fin _ => true
  | _ => false

/-- The JavaScript strict-less-than on numbers (IEEE semantics: every
comparison against NaN is false). -/
def jlt : JNum → JNum → Bool
  | .fin a, .fin b => decide (a < b)
  | .fin _, .posInf => true
  | .negInf, .fin _ => true
  | .negInf, .posInf => true
  | _, _ => false

/-- The JavaScript less-than-or-equal on numbers (IEEE semantics: every
comparison against NaN is false). -/
def jle : JNum → JNum → Bool
  | .nan, _ => false
  | _, .nan => false
  | .fin a, .fin b => decide (a ≤ b)
  | .negInf, _ => true
  | _, .posInf => true
  | .posInf, .fin _ => false
  | .posInf, .negInf => false
  | .fin _, .negInf => false

/-- The normalized flight offer shape produced by normalizeFlightOffer
(server.js lines 95-133). -/
structure FlightOffer where
  airline : String
  flightNumber : String
  departTime : String
  arrivalTime : String
  duration : String
  nonstop : Bool
  stops : Int
  price : JNum
  currency : String
  bookingUrl : String
  carrierCode : String
deriving DecidableEq, Repr

/-- The dedup key string built in dedupeFlights (server.js line 141).  All
four fields are plain strings in a normalized offer, so the JavaScript
empty-string fallbacks never change the value. -/
def keyOf (f : FlightOffer) : String :=
  f.carrierCode ++ "-" ++ f.flightNumber ++ "-" ++ f.departTime ++ "-" ++ f.arrivalTime

/-- JavaScript Map.get on an insertion-ordered association list. -/
def mapGet : List (String × FlightOffer) → String → Option FlightOffer
  | [], _ => none
  | p :: rest, k => if p.1 = k then some p.2 else mapGet rest k

/-- JavaScript Map.set on an insertion-ordered association list: replace the
binding in place if the key is present, append otherwise. -/
def mapSet : List (String × FlightOffer) → String → FlightOffer → List (String × FlightOffer)
  | [], k, v => [(k, v)]
  | p :: rest, k, v => if p.1 = k then (k, v) :: rest else p :: mapSet rest k v

/-- The body of the flights.forEach loop of dedupeFlights (server.js lines
139-146): skip null entries, store a first offer for a key, and replace the
stored offer only by a finitely priced strictly cheaper one. -/
def dedupeStep (m : List (String × FlightOffer)) (f : Option FlightOffer) :
    List (String × FlightOffer) :=
  match f with
  | none => m
  | some f =>
    match mapGet m (keyOf f) with
    | none => mapSet m (keyOf f) f
    | some existing =>
      if f.price.isFinite && jlt f.price existing.price then mapSet m (keyOf f) f
      else m

/-- dedupeFlights (server.js lines 136-149): fold the loop body over the
input and return the surviving values in key insertion order. -/
def dedupeFlights (flights : List (Option FlightOffer)) : List FlightOffer :=
  (flights.foldl dedupeStep []).map Prod.snd

/-- The replacement rule of dedupeFlights on its own: keep the stored offer
unless the incoming one has a finite, strictly lower price. -/
def pickBetter (best f : FlightOffer) : FlightOffer :=
  if f.price.isFinite && jlt f.price best.price then f else best

/-- Survivor of a key group, folded with an optional accumulator: the first
offer of the group seeds the accumulator, later offers pass through
pickBetter. -/
def stepOpt (acc : Option FlightOffer) (f : FlightOffer) : Option FlightOffer :=
  match acc with
  | none => some f
  | some v => some (pickBetter v f)

/-- A concrete normalized offer for the key scenarios, varying only in its
price. -/
def mkOffer (p : JNum) : FlightOffer :=
  { airline := "IndiGo"
    flightNumber := "6E 123"
    departTime := "2026-02-01T10:00"
    arrivalTime := "2026-02-01T12:00"
    duration := "2h"
    nonstop := true
    stops := 0
    price := p
    currency := "INR"
    bookingUrl := "https://www.google.com/search?q=f"
    carrierCode := "6E" }

/-- The non-null input offers carrying a given dedup key, in input order:
the offers competing for one slot of the dedup map. -/
def dedupeGroup (flights : List (Option FlightOffer)) (k : String) :
    List FlightOffer :=
  (flights.filterMap id).filter (fun f => keyOf f == k)

/-- One row of the price_history table (the columns written by
recordPriceHistory, server.js lines 182-201). -/
structure PriceSnapshot where
  origin : String
  destination : String
  departure_date : String
  search_date : String
  days_until_departure : Int
  min_price : ℚ
  avg_price : ℚ
  max_price : ℚ
  currency : String
  created_at : String
deriving DecidableEq, Repr

/-- The columns selected by the /api/history query (server.js lines
458-465). -/
structure HistoryRow where
  days_until_departure : Int
  avg_price : ℚ
  min_price : ℚ
  max_price : ℚ
  search_date : String
deriving DecidableEq, Repr

/-- Projection of a stored snapshot onto the selected history columns. -/
def snapshotRow (r : PriceSnapshot) : HistoryRow :=
  ⟨r.days_until_departure, r.avg_price, r.min_price, r.max_price, r.search_date⟩

/-- Comparison used by ORDER BY days_until_departure ASC. -/
def historyLE (a b : HistoryRow) : Prop :=
  a.days_until_departure ≤ b.days_until_departure

instance : DecidableRel historyLE := fun a b =>
  Int.decLe a.days_until_departure b.days_until_departure

instance : IsTotal HistoryRow historyLE :=
  ⟨fun a b => Int.le_total a.days_until_departure b.days_until_departure⟩

instance : IsTrans HistoryRow historyLE :=
  ⟨fun _ _ _ hab hbc => Int.le_trans hab hbc⟩

/-- Row-level semantics of the /api/history SELECT (server.js lines
458-465): take the rows matching the exact route and departure date,
project the selected columns, and order by days_until_departure ascending
(modelled by a stable insertion sort). -/
def queryHistory (table : List PriceSnapshot) (o d dd : String) : List HistoryRow :=
  List.insertionSort historyLE
    ((table.filter fun r =>
        r.origin = o ∧ r.destination = d ∧ r.departure_date = dd).map snapshotRow)

/-- The three response shapes of the /api/history handler. -/
inductive HistoryResponse where
  | ok (history : List HistoryRow)
  | badRequest (error : String)
  | serverError (error : String)
deriving DecidableEq, Repr

/-- The /api/history handler (server.js lines 449-475).  Absent query
parameters are modelled as empty strings (both are falsy in the
JavaScript presence check); a failing storage query is the error case of
the Except argument and lands in the catch branch. -/
def apiHistory (origin destination departDate : String)
    (store : Except String (List PriceSnapshot)) : HistoryResponse :=
  if origin = "" ∨ destination = "" ∨ departDate = "" then
    .badRequest "origin, destination and departDate query parameters are required."
  else
    match store with
    | .ok table => .ok (queryHistory table origin destination departDate)
    | .error _ => .serverError "Unable to load price history."

/-- updateSeasonalStats (aiAdvisor.js lines 577-628, and the draft in
src/unnamed/part_004 lines 151-208): classify the observation as far
(days at least 30), near (days at most 7) or ignored, and apply the
atomic upsert with additive increments to the addressed
(origin, destination, month) row, setting last_updated to now.  The row
state is the Option argument: none when the key has no row yet. -/
def updateSeasonalStats (daysUntilDeparture : Int) (avgPrice : ℚ) (now : Int)
    (bucket : Option SeasonalStat) : Option SeasonalStat :=
  let isFar := daysUntilDeparture ≥ 30
  let isNear := daysUntilDeparture ≤ 7
  if ¬isFar ∧ ¬isNear then bucket
  else
    let farS : ℚ := if isFar then avgPrice else 0
    let farC : Int := if isFar then 1 else 0
    let nearS : ℚ := if isNear then avgPrice else 0
    let nearC : Int := if isNear then 1 else 0
    match bucket with
    | none => some ⟨1, farS, farC, nearS, nearC, now⟩
    | some s =>
      some ⟨s.total_points + 1, s.far_sum + farS, s.far_count + farC,
            s.near_sum + nearS, s.near_count + nearC, now⟩

/-- Row-level semantics of the retention DELETE of the part_004 draft
(DELETE FROM seasonal_stats WHERE last_updated is older than 180 days):
a row is either kept whole or deleted whole. -/
def pruneSeasonalRow (now : Int) (s : SeasonalStat) : Option SeasonalStat :=
  if now - s.lastUpdated > 180 then none else some s

/-- C2: the first draft's heuristic advisor follows the fixed policy: at
most 7 days out it books (confidence 85 when the average is within 10% of
the minimum, else 75); beyond 30 days it waits with confidence 70 when the
average exceeds the minimum by more than 30%, else books with confidence
60; in between it books with confidence 65 when the spread is below 10% of
the average, else waits with confidence 55.  The confidence always lies in
[0, 100], and at 0 days the action is BOOK. -/
theorem heuristic_policy (d : Int) (mn av mx : ℚ) :
    (d ≤ 7 → Advisor1.heuristicAdvice d mn av mx =
        ⟨BWAction.BOOK, if av ≤ mn * (11/10) then 85 else 75⟩) ∧
    (d > 30 → Advisor1.heuristicAdvice d mn av mx =
        if av > mn * (13/10) then ⟨BWAction.WAIT, 70⟩ else ⟨BWAction.BOOK, 60⟩) ∧
    (7 < d → d ≤ 30 → Advisor1.heuristicAdvice d mn av mx =
        if mx - mn < av * (1/10) then ⟨BWAction.BOOK, 65⟩ else ⟨BWAction.WAIT, 55⟩) ∧
    (0 ≤ (Advisor1.heuristicAdvice d mn av mx).confidence ∧
      (Advisor1.heuristicAdvice d mn av mx).confidence ≤ 100) ∧
    (d = 0 → (Advisor1.heuristicAdvice d mn av mx).action = BWAction.BOOK) := by
  refine ⟨fun h => ?_, fun h => ?_, fun h1 h2 => ?_, ?_, fun h => ?_⟩
  · simp only [Advisor1.heuristicAdvice]
    rw [if_pos h]
  · simp only [Advisor1.heuristicAdvice]
    rw [if_neg (by omega), if_pos h]
  · simp only [Advisor1.heuristicAdvice]
    rw [if_neg (by omega), if_neg (by omega)]
  · simp only [Advisor1.heuristicAdvice]
    split_ifs <;> simp
  · simp only [Advisor1.heuristicAdvice]
    rw [if_pos (by omega)]

/-- Witness for C2: the spec scenario 5 days out with min 100, avg 104,
max 120 books with confidence 85. -/
theorem heuristic_policy_witness :
    Advisor1.heuristicAdvice 5 100 104 120 = ⟨BWAction.BOOK, 85⟩ := by
  rw [(heuristic_policy 5 100 104 120).1 (by norm_num), if_pos (by norm_num)]

/-- C10: the first draft's heuristic advisor is always opinionated (every
branch yields BOOK or WAIT), and consequently the first draft's blend
always follows the heuristic action, so its fallback to the seasonal
action alone is unreachable for heuristic results produced by this
advisor. -/
theorem heuristic_always_opinionated (d : Int) (mn av mx : ℚ) (l : LearnResult) :
    ((Advisor1.heuristicAdvice d mn av mx).action = BWAction.BOOK ∨
      (Advisor1.heuristicAdvice d mn av mx).action = BWAction.WAIT) ∧
    (Advisor1.blendDecision (Advisor1.heuristicAdvice d mn av mx) l).action =
      (Advisor1.heuristicAdvice d mn av mx).action := by
  have hop : (Advisor1.heuristicAdvice d mn av mx).action = BWAction.BOOK ∨
      (Advisor1.heuristicAdvice d mn av mx).action = BWAction.WAIT := by
    simp only [Advisor1.heuristicAdvice]
    split_ifs <;> simp
  refine ⟨hop, ?_⟩
  have hne : (Advisor1.heuristicAdvice d mn av mx).action ≠ BWAction.NO_SIGNAL := by
    rcases hop with h | h <;> simp [h]
  generalize Advisor1.heuristicAdvice d mn av mx = h at hop hne ⊢
  simp only [Advisor1.blendDecision]
  split_ifs with h1 h2 h3
  · exact h1.1.symm
  · exact h2.1.symm
  · simp [if_pos hne]
  · simp [if_pos hne]

/-- C5 (amended): in the first advisor draft an opinionated learning result
always carries hasHistory, and on a BOOK/WAIT disagreement the blend
follows the heuristic action with confidence round of the average minus
10; the second draft's blend instead collapses any such disagreement to
NO_SIGNAL with confidence 40. -/
theorem blend_disagreement_policy :
    (∀ db, (Advisor1.learningAdvice db).action ≠ BWAction.NO_SIGNAL →
        (Advisor1.learningAdvice db).hasHistory = true) ∧
    (∀ (h : Advice) (l : LearnResult),
        (h.action = BWAction.BOOK ∧ l.action = BWAction.WAIT) ∨
          (h.action = BWAction.WAIT ∧ l.action = BWAction.BOOK) →
        l.hasHistory = true →
        Advisor1.blendDecision h l =
          ⟨h.action, jround (((h.confidence : ℚ) + (l.confidence : ℚ)) / 2 - 10)⟩) ∧
    (∀ h s : Advice,
        (h.action = BWAction.BOOK ∧ s.action = BWAction.WAIT) ∨
          (h.action = BWAction.WAIT ∧ s.action = BWAction.BOOK) →
        Advisor2.blendDecision h s = ⟨BWAction.NO_SIGNAL, 40⟩) := by
  refine ⟨fun db hne => ?_, fun h l hdis hh => ?_, fun h s hdis => ?_⟩
  · rcases db with e | rows
    · simp [Advisor1.learningAdvice] at hne
    · rcases rows with _ | ⟨stat, rest⟩
      · simp [Advisor1.learningAdvice] at hne
      · simp only [Advisor1.learningAdvice] at hne ⊢
        split_ifs at hne ⊢ <;> rfl
  · have hana : h.action ≠ l.action := by
      rcases hdis with ⟨h1, h2⟩ | ⟨h1, h2⟩ <;> rw [h1, h2] <;> simp
    have hano : h.action ≠ BWAction.NO_SIGNAL := by
      rcases hdis with ⟨h1, _⟩ | ⟨h1, _⟩ <;> rw [h1] <;> simp
    simp only [Advisor1.blendDecision]
    rw [if_neg, if_neg, if_pos ⟨hana, hh⟩, if_pos hano]
    · rintro ⟨h1, h2⟩
      rcases hdis with ⟨h3, h4⟩ | ⟨h3, h4⟩ <;> simp_all
    · rintro ⟨h1, h2⟩
      rcases hdis with ⟨h3, h4⟩ | ⟨h3, h4⟩ <;> simp_all
  · simp only [Advisor2.blendDecision]
    rw [if_neg, if_neg, if_neg]
    · rintro ⟨h1, h2⟩
      rcases hdis with ⟨h3, h4⟩ | ⟨h3, h4⟩ <;> simp_all
    · rintro ⟨h1, h2⟩
      rcases hdis with ⟨h3, h4⟩ | ⟨h3, h4⟩ <;> simp_all
    · rintro ⟨h1, h2, h3⟩
      rcases hdis with ⟨h4, h5⟩ | ⟨h4, h5⟩ <;> simp_all

/-- Witness for C5: heuristic BOOK(80) against seasonal WAIT(70) blends, in
the first draft, to BOOK with confidence 65. -/
theorem blend_disagreement_policy_witness :
    Advisor1.blendDecision ⟨BWAction.BOOK, 80⟩ ⟨true, 10, BWAction.WAIT, 70, Trend.DOWN⟩ =
      ⟨BWAction.BOOK, 65⟩ := by
  rw [blend_disagreement_policy.2.1 ⟨BWAction.BOOK, 80⟩
      ⟨true, 10, BWAction.WAIT, 70, Trend.DOWN⟩ (Or.inl ⟨rfl, rfl⟩) rfl]
  congr 1
  norm_num [jround]

/-- Counterexample for C5: fed heuristic BOOK(80) and seasonal WAIT(70),
the second draft's blend yields NO_SIGNAL with confidence 40, not the
claimed heuristic action BOOK with confidence 65. -/
theorem blend2_disagreement_no_signal :
    Advisor2.blendDecision ⟨BWAction.BOOK, 80⟩ ⟨BWAction.WAIT, 70⟩ =
      ⟨BWAction.NO_SIGNAL, 40⟩ ∧
    (Advisor2.blendDecision ⟨BWAction.BOOK, 80⟩ ⟨BWAction.WAIT, 70⟩ ==
        (⟨BWAction.BOOK, 65⟩ : Advice)) = false := by
  constructor
  · decide
  · decide

/-- C6 (amended): when only the heuristic is opinionated, the second
draft's blend returns the heuristic action with exactly the heuristic
confidence (when that confidence is nonzero, the JavaScript truthiness
guard); the first draft's blend follows the heuristic action but averages
the confidences (subtracting 10 when the learning result has history)
instead of keeping the heuristic confidence unchanged. -/
theorem blend_heuristic_only_policy :
    (∀ h s : Advice, h.action ≠ BWAction.NO_SIGNAL → s.action = BWAction.NO_SIGNAL →
        h.confidence ≠ 0 → Advisor2.blendDecision h s = ⟨h.action, h.confidence⟩) ∧
    (∀ (h : Advice) (l : LearnResult), h.action ≠ BWAction.NO_SIGNAL →
        l.action = BWAction.NO_SIGNAL →
        Advisor1.blendDecision h l =
          ⟨h.action,
            if l.hasHistory then
              jround (((h.confidence : ℚ) + (l.confidence : ℚ)) / 2 - 10)
            else jround (((h.confidence : ℚ) + (l.confidence : ℚ)) / 2)⟩) := by
  refine ⟨fun h s hh hs hc => ?_, fun h l hh hl => ?_⟩
  · simp only [Advisor2.blendDecision]
    rw [if_neg, if_neg, if_pos ⟨hh, hs⟩, if_neg hc]
    · rintro ⟨h1, h2⟩
      exact h1 hs
    · rintro ⟨h1, h2, h3⟩
      exact h1 hs
  · have hana : h.action ≠ l.action := by rw [hl]; exact hh
    simp only [Advisor1.blendDecision]
    rw [if_neg, if_neg, if_pos hh]
    · cases hb : l.hasHistory <;> simp [hana]
    · rintro ⟨h1, h2⟩
      rw [hl] at h2
      simp at h2
    · rintro ⟨h1, h2⟩
      rw [hl] at h2
      simp at h2

/-- Witness for C6: heuristic WAIT(55) with a seasonal NO_SIGNAL passes
through the second draft's blend unchanged. -/
theorem blend_heuristic_only_policy_witness :
    Advisor2.blendDecision ⟨BWAction.WAIT, 55⟩ ⟨BWAction.NO_SIGNAL, 40⟩ =
      ⟨BWAction.WAIT, 55⟩ :=
  blend_heuristic_only_policy.1 ⟨BWAction.WAIT, 55⟩ ⟨BWAction.NO_SIGNAL, 40⟩
    (by decide) rfl (by decide)

/-- Counterexample for C6: in the first draft, heuristic BOOK(85) blended
with a no-history NO_SIGNAL(40) learning result gets confidence 63
(the rounded average), not the heuristic confidence 85. -/
theorem blend1_changes_heuristic_confidence :
    Advisor1.blendDecision ⟨BWAction.BOOK, 85⟩ ⟨false, 0, BWAction.NO_SIGNAL, 40, Trend.FLAT⟩ =
      ⟨BWAction.BOOK, 63⟩ ∧
    (Advisor1.blendDecision ⟨BWAction.BOOK, 85⟩ ⟨false, 0, BWAction.NO_SIGNAL, 40, Trend.FLAT⟩ ==
        (⟨BWAction.BOOK, 85⟩ : Advice)) = false := by
  have he : Advisor1.blendDecision ⟨BWAction.BOOK, 85⟩
      ⟨false, 0, BWAction.NO_SIGNAL, 40, Trend.FLAT⟩ = ⟨BWAction.BOOK, 63⟩ := by
    simp only [Advisor1.blendDecision]
    norm_num [jround]
    decide
  refine ⟨he, ?_⟩
  rw [he]
  decide

/-- C3 (amended): the first draft's learning layer returns NO_SIGNAL with
confidence at most 45 on a database error, on an absent bucket, and on a
bucket with total_points below 6 or far_count below 2 or near_count below
2 (it applies no freshness window); the second draft returns NO_SIGNAL on
a database error, when no bucket is within the 180-day freshness window,
and when the fresh bucket has far_count below 2 or near_count below 2 (it
applies no total_points check). -/
theorem learning_no_signal_conditions :
    (∀ e : String, Advisor1.learningAdvice (.error e) =
        ⟨false, 0, BWAction.NO_SIGNAL, 40, Trend.FLAT⟩) ∧
    (Advisor1.learningAdvice (.ok []) =
        ⟨false, 0, BWAction.NO_SIGNAL, 40, Trend.FLAT⟩) ∧
    (∀ (s : SeasonalStat) (rest : List SeasonalStat),
        s.total_points < 6 ∨ s.far_count < 2 ∨ s.near_count < 2 →
        Advisor1.learningAdvice (.ok (s :: rest)) =
          ⟨true, s.total_points, BWAction.NO_SIGNAL, 45, Trend.FLAT⟩) ∧
    (∀ (now : Int) (e : String),
        Advisor2.learningAdvice now (.error e) = ⟨BWAction.NO_SIGNAL, 0⟩) ∧
    (∀ (now : Int) (rows : List SeasonalStat),
        (∀ s ∈ rows, 180 < now - s.lastUpdated) →
        Advisor2.learningAdvice now (.ok rows) = ⟨BWAction.NO_SIGNAL, 0⟩) ∧
    (∀ (now : Int) (s : SeasonalStat) (rest : List SeasonalStat),
        now - s.lastUpdated ≤ 180 →
        s.far_count < 2 ∨ s.near_count < 2 →
        Advisor2.learningAdvice now (.ok (s :: rest)) = ⟨BWAction.NO_SIGNAL, 0⟩) := by
  refine ⟨fun e => rfl, rfl, fun s rest hlow => ?_, fun now e => rfl,
    fun now rows hstale => ?_, fun now s rest hfresh hlow => ?_⟩
  · simp only [Advisor1.learningAdvice]
    rw [if_pos hlow]
  · simp only [Advisor2.learningAdvice]
    have hnil : rows.filter (fun s => decide (now - s.lastUpdated ≤ 180)) = [] := by
      rw [List.filter_eq_nil_iff]
      intro s hs
      simpa using (hstale s hs).not_le
    rw [hnil]
  · simp only [Advisor2.learningAdvice]
    rw [List.filter_cons_of_pos (by simpa using hfresh)]
    exact if_pos hlow

/-- Witness for C3: a bucket with only two observations (one far, one near)
yields NO_SIGNAL with confidence 45 in the first draft, and a fresh bucket
with a single far observation yields NO_SIGNAL in the second draft. -/
theorem learning_no_signal_conditions_witness :
    Advisor1.learningAdvice (.ok [⟨2, 150, 1, 160, 1, 0⟩]) =
      ⟨true, 2, BWAction.NO_SIGNAL, 45, Trend.FLAT⟩ ∧
    Advisor2.learningAdvice 100 (.ok [⟨4, 300, 1, 0, 0, 0⟩]) =
      ⟨BWAction.NO_SIGNAL, 0⟩ := by
  constructor
  · exact learning_no_signal_conditions.2.2.1 ⟨2, 150, 1, 160, 1, 0⟩ []
      (Or.inl (by norm_num))
  · exact learning_no_signal_conditions.2.2.2.2.2 100 ⟨4, 300, 1, 0, 0, 0⟩ []
      (by norm_num) (Or.inl (by norm_num))

/-- Counterexample for C3: a fresh bucket with total_points 4 (below the
claimed threshold of 6) but two far and two near observations makes the
second draft's learning layer return BOOK with confidence 75, not
NO_SIGNAL. -/
theorem learning2_skips_total_points :
    Advisor2.learningAdvice 0 (.ok [⟨4, 200, 2, 400, 2, 0⟩]) = ⟨BWAction.BOOK, 75⟩ ∧
    (⟨4, 200, 2, 400, 2, 0⟩ : SeasonalStat).total_points < 6 ∧
    ((Advisor2.learningAdvice 0 (.ok [⟨4, 200, 2, 400, 2, 0⟩])).action ==
        BWAction.NO_SIGNAL) = false := by
  have he : Advisor2.learningAdvice 0 (.ok [⟨4, 200, 2, 400, 2, 0⟩]) =
      ⟨BWAction.BOOK, 75⟩ := by
    simp only [Advisor2.learningAdvice]
    norm_num [List.filter]
  refine ⟨he, by norm_num, ?_⟩
  rw [he]
  decide

/-- C4: once the evidence thresholds pass, the first draft's learning layer
classifies relChange in order: below 5% in absolute value is FLAT and
NO_SIGNAL; above 10% is UP and BOOK with confidence 75; below minus 10% is
DOWN and WAIT with confidence 75; otherwise a positive relChange is UP and
BOOK with confidence 65 and a negative one is DOWN and WAIT with
confidence 65; and a nonpositive far average short-circuits to NO_SIGNAL
(the non-finite guard is vacuous on rationals, which model exactly the
finite numbers). -/
theorem learning_trend_classification (s : SeasonalStat) (rest : List SeasonalStat)
    (h6 : 6 ≤ s.total_points) (hf : 2 ≤ s.far_count) (hn : 2 ≤ s.near_count) :
    (s.far_sum / (s.far_count : ℚ) ≤ 0 →
        Advisor1.learningAdvice (.ok (s :: rest)) =
          ⟨true, s.total_points, BWAction.NO_SIGNAL, 45, Trend.FLAT⟩) ∧
    (0 < s.far_sum / (s.far_count : ℚ) →
      (|(s.near_sum / (s.near_count : ℚ) - s.far_sum / (s.far_count : ℚ)) /
            (s.far_sum / (s.far_count : ℚ))| < 1/20 →
          Advisor1.learningAdvice (.ok (s :: rest)) =
            ⟨true, s.total_points, BWAction.NO_SIGNAL, 50, Trend.FLAT⟩) ∧
      (1/10 < (s.near_sum / (s.near_count : ℚ) - s.far_sum / (s.far_count : ℚ)) /
            (s.far_sum / (s.far_count : ℚ)) →
          Advisor1.learningAdvice (.ok (s :: rest)) =
            ⟨true, s.total_points, BWAction.BOOK, 75, Trend.UP⟩) ∧
      ((s.near_sum / (s.near_count : ℚ) - s.far_sum / (s.far_count : ℚ)) /
            (s.far_sum / (s.far_count : ℚ)) < -(1/10) →
          Advisor1.learningAdvice (.ok (s :: rest)) =
            ⟨true, s.total_points, BWAction.WAIT, 75, Trend.DOWN⟩) ∧
      (0 < (s.near_sum / (s.near_count : ℚ) - s.far_sum / (s.far_count : ℚ)) /
            (s.far_sum / (s.far_count : ℚ)) →
        (s.near_sum / (s.near_count : ℚ) - s.far_sum / (s.far_count : ℚ)) /
            (s.far_sum / (s.far_count : ℚ)) ≤ 1/10 →
        1/20 ≤ |(s.near_sum / (s.near_count : ℚ) - s.far_sum / (s.far_count : ℚ)) /
            (s.far_sum / (s.far_count : ℚ))| →
          Advisor1.learningAdvice (.ok (s :: rest)) =
            ⟨true, s.total_points, BWAction.BOOK, 65, Trend.UP⟩) ∧
      ((s.near_sum / (s.near_count : ℚ) - s.far_sum / (s.far_count : ℚ)) /
            (s.far_sum / (s.far_count : ℚ)) < 0 →
        -(1/10) ≤ (s.near_sum / (s.near_count : ℚ) - s.far_sum / (s.far_count : ℚ)) /
            (s.far_sum / (s.far_count : ℚ)) →
        1/20 ≤ |(s.near_sum / (s.near_count : ℚ) - s.far_sum / (s.far_count : ℚ)) /
            (s.far_sum / (s.far_count : ℚ))| →
          Advisor1.learningAdvice (.ok (s :: rest)) =
            ⟨true, s.total_points, BWAction.WAIT, 65, Trend.DOWN⟩)) := by
  have hthr : ¬(s.total_points < 6 ∨ s.far_count < 2 ∨ s.near_count < 2) := by omega
  constructor
  · intro hle
    simp only [Advisor1.learningAdvice]
    rw [if_neg hthr, if_pos (Or.inr (Or.inr hle))]
  · intro hpos
    have hguard : ¬(numIsFinite (s.far_sum / (s.far_count : ℚ)) = false ∨
        numIsFinite (s.near_sum / (s.near_count : ℚ)) = false ∨
        s.far_sum / (s.far_count : ℚ) ≤ 0) := by
      simp [numIsFinite]
      linarith
    refine ⟨fun h1 => ?_, fun h1 => ?_, fun h1 => ?_, fun h1 h2 h3 => ?_,
      fun h1 h2 h3 => ?_⟩
    · simp only [Advisor1.learningAdvice]
      rw [if_neg hthr, if_neg hguard, if_pos h1]
    · simp only [Advisor1.learningAdvice]
      rw [if_neg hthr, if_neg hguard, if_neg (by rw [not_lt]; calc
            (1:ℚ)/20 ≤ 1/10 := by norm_num
            _ ≤ _ := le_trans h1.le (le_abs_self _)),
        if_pos h1]
    · simp only [Advisor1.learningAdvice]
      rw [if_neg hthr, if_neg hguard, if_neg (by rw [not_lt]; calc
            (1:ℚ)/20 ≤ -((s.near_sum / (s.near_count : ℚ) - s.far_sum / (s.far_count : ℚ)) /
                (s.far_sum / (s.far_count : ℚ))) := by linarith
            _ ≤ _ := neg_le_abs _),
        if_neg (by linarith), if_pos h1]
    · simp only [Advisor1.learningAdvice]
      rw [if_neg hthr, if_neg hguard, if_neg (not_lt.mpr h3),
        if_neg (not_lt.mpr h2), if_neg (by linarith), if_pos h1]
    · simp only [Advisor1.learningAdvice]
      rw [if_neg hthr, if_neg hguard, if_neg (not_lt.mpr h3),
        if_neg (by linarith), if_neg (not_lt.mpr h2), if_neg (by linarith)]

/-- Witness for C4: the spec scenario far average 200 (1000 over 5) and
near average 276 (1380 over 5) has relChange 0.38 and yields UP and BOOK
with confidence 75. -/
theorem learning_trend_classification_witness :
    Advisor1.learningAdvice (.ok [⟨10, 1000, 5, 1380, 5, 0⟩]) =
      ⟨true, 10, BWAction.BOOK, 75, Trend.UP⟩ := by
  have h := (learning_trend_classification ⟨10, 1000, 5, 1380, 5, 0⟩ []
      (by norm_num) (by norm_num) (by norm_num)).2 (by norm_num)
  exact h.2.1 (by norm_num)

/-- C9 (amended): the seasonal upsert preserves the bucket invariant
total_points at least far_count plus near_count (with equality preserved,
and established on a fresh insert), and it never decrements total_points,
far_count or near_count; the price sums are nondecreasing provided the
observed average price is nonnegative (the code does not check the sign,
so a negative observed price decrements a sum); the retention pass either
keeps a row whole or deletes it whole. -/
theorem seasonal_update_invariants (d : Int) (p : ℚ) (now : Int) (s : SeasonalStat) :
    (s.total_points ≥ s.far_count + s.near_count →
      ∀ s2, updateSeasonalStats d p now (some s) = some s2 →
        s2.total_points ≥ s2.far_count + s2.near_count) ∧
    (s.total_points = s.far_count + s.near_count →
      ∀ s2, updateSeasonalStats d p now (some s) = some s2 →
        s2.total_points = s2.far_count + s2.near_count) ∧
    (∀ s2, updateSeasonalStats d p now (some s) = some s2 →
        s.total_points ≤ s2.total_points ∧ s.far_count ≤ s2.far_count ∧
        s.near_count ≤ s2.near_count ∧
        (0 ≤ p → s.far_sum ≤ s2.far_sum ∧ s.near_sum ≤ s2.near_sum)) ∧
    (∀ s0, updateSeasonalStats d p now none = some s0 →
        s0.total_points = s0.far_count + s0.near_count ∧ s0.total_points = 1) ∧
    (pruneSeasonalRow now s = some s ∨ pruneSeasonalRow now s = none) := by
  refine ⟨fun hinv s2 h2 => ?_, fun hinv s2 h2 => ?_, fun s2 h2 => ?_,
    fun s0 h0 => ?_, ?_⟩
  · simp only [updateSeasonalStats] at h2
    split_ifs at h2 <;> injection h2 with h2 <;> subst h2 <;>
      (try simp only []) <;> omega
  · simp only [updateSeasonalStats] at h2
    split_ifs at h2 <;> injection h2 with h2 <;> subst h2 <;>
      (try simp only []) <;> omega
  · simp only [updateSeasonalStats] at h2
    split_ifs at h2 <;> injection h2 with h2 <;> subst h2 <;>
      refine ⟨?_, ?_, ?_, fun hp => ⟨?_, ?_⟩⟩ <;> (try simp only []) <;>
      first | omega | linarith
  · simp only [updateSeasonalStats] at h0
    split_ifs at h0 <;> injection h0 with h0 <;> subst h0 <;>
      (try simp only []) <;> exact ⟨by omega, trivial⟩
  · simp only [pruneSeasonalRow]
    split_ifs with h
    · exact Or.inr rfl
    · exact Or.inl rfl

/-- Witness for C9: a far observation of price 5 at 40 days out, applied to
a bucket holding one far point, keeps total_points equal to far_count plus
near_count. -/
theorem seasonal_update_invariants_witness :
    (updateSeasonalStats 40 5 0 (some ⟨1, 10, 1, 0, 0, 0⟩) = some ⟨2, 15, 2, 0, 0, 0⟩) ∧
    ((⟨2, 15, 2, 0, 0, 0⟩ : SeasonalStat).total_points =
      (⟨2, 15, 2, 0, 0, 0⟩ : SeasonalStat).far_count +
        (⟨2, 15, 2, 0, 0, 0⟩ : SeasonalStat).near_count) := by
  have he : updateSeasonalStats 40 5 0 (some ⟨1, 10, 1, 0, 0, 0⟩) =
      some ⟨2, 15, 2, 0, 0, 0⟩ := by
    simp only [updateSeasonalStats]
    norm_num
  exact ⟨he, (seasonal_update_invariants 40 5 0 ⟨1, 10, 1, 0, 0, 0⟩).2.1 (by norm_num)
    ⟨2, 15, 2, 0, 0, 0⟩ he⟩

/-- Counterexample for C9: the upsert does not validate the sign of the
observed price, so a far observation with average price minus 50 moves
far_sum from 100 down to 50 — a decrement without any row deletion. -/
theorem seasonal_update_negative_price_decrements :
    updateSeasonalStats 40 (-50) 0 (some ⟨1, 100, 1, 0, 0, 0⟩) =
      some ⟨2, 50, 2, 0, 0, 0⟩ ∧
    ((⟨2, 50, 2, 0, 0, 0⟩ : SeasonalStat).far_sum <
      (⟨1, 100, 1, 0, 0, 0⟩ : SeasonalStat).far_sum) := by
  constructor
  · simp only [updateSeasonalStats]
    norm_num
  · norm_num

/-- C8 (amended): with all three query parameters present, the history
endpoint answers a successful storage query with exactly the snapshots
matching the requested route and departure date, ordered by
days-until-departure ascending; but when the storage query fails it
responds with the HTTP 500 error body, not with an empty result. -/
theorem history_read_policy :
    (∀ (o d dd : String) (table : List PriceSnapshot),
        o ≠ "" → d ≠ "" → dd ≠ "" →
        apiHistory o d dd (.ok table) = .ok (queryHistory table o d dd)) ∧
    (∀ (table : List PriceSnapshot) (o d dd : String),
        List.Sorted historyLE (queryHistory table o d dd)) ∧
    (∀ (table : List PriceSnapshot) (o d dd : String),
        List.Perm (queryHistory table o d dd)
          ((table.filter fun r =>
              r.origin = o ∧ r.destination = d ∧ r.departure_date = dd).map
            snapshotRow)) ∧
    (∀ (o d dd err : String), o ≠ "" → d ≠ "" → dd ≠ "" →
        apiHistory o d dd (.error err) =
          .serverError "Unable to load price history.") := by
  refine ⟨fun o d dd table ho hd hdd => ?_, fun table o d dd => ?_,
    fun table o d dd => ?_, fun o d dd err ho hd hdd => ?_⟩
  · simp only [apiHistory]
    rw [if_neg (by simp [ho, hd, hdd])]
  · exact List.sorted_insertionSort historyLE _
  · exact List.perm_insertionSort historyLE _
  · simp only [apiHistory]
    rw [if_neg (by simp [ho, hd, hdd])]

/-- Witness for C8: a well-formed request against an empty table answers
with an empty history list. -/
theorem history_read_policy_witness :
    apiHistory "DEL" "DXB" "2026-02-01" (.ok []) = HistoryResponse.ok [] := by
  rw [history_read_policy.1 "DEL" "DXB" "2026-02-01" [] (by decide) (by decide)
    (by decide)]
  rfl

/-- Counterexample for C8: a failing storage query makes the history
endpoint answer with the HTTP 500 error body rather than an empty
result. -/
theorem history_error_returns_500 :
    apiHistory "DEL" "DXB" "2026-02-01" (.error "connection refused") =
      HistoryResponse.serverError "Unable to load price history." ∧
    (apiHistory "DEL" "DXB" "2026-02-01" (.error "connection refused") ==
        HistoryResponse.ok []) = false := by
  constructor
  · decide
  · decide

lemma mapGet_mapSet_self (m : List (String × FlightOffer)) (k : String)
    (v : FlightOffer) : mapGet (mapSet m k v) k = some v := by
  induction m with
  | nil => simp [mapSet, mapGet]
  | cons p rest ih =>
    by_cases h : p.1 = k
    · simp [mapSet, mapGet, h]
    · simp [mapSet, mapGet, h, ih]

lemma mapGet_mapSet_ne (m : List (String × FlightOffer)) (k k' : String)
    (v : FlightOffer) (h : k' ≠ k) :
    mapGet (mapSet m k v) k' = mapGet m k' := by
  induction m with
  | nil => simp [mapSet, mapGet, h.symm]
  | cons p rest ih =>
    by_cases hp : p.1 = k
    · simp [mapSet, mapGet, hp, h.symm]
    · simp [mapSet, mapGet, hp, ih]

lemma mem_mapSet {m : List (String × FlightOffer)} {k : String} {v : FlightOffer}
    {p : String × FlightOffer} (h : p ∈ mapSet m k v) : p = (k, v) ∨ p ∈ m := by
  induction m with
  | nil => simpa [mapSet] using h
  | cons q rest ih =>
    by_cases hq : q.1 = k
    · simp only [mapSet, if_pos hq, List.mem_cons] at h
      rcases h with h | h
      · exact Or.inl h
      · exact Or.inr (List.mem_cons_of_mem q h)
    · simp only [mapSet, if_neg hq, List.mem_cons] at h
      rcases h with h | h
      · exact Or.inr (h ▸ List.mem_cons_self q rest)
      · rcases ih h with h | h
        · exact Or.inl h
        · exact Or.inr (List.mem_cons_of_mem q h)

lemma mapGet_eq_none_iff (m : List (String × FlightOffer)) (k : String) :
    mapGet m k = none ↔ k ∉ m.map Prod.fst := by
  induction m with
  | nil => simp [mapGet]
  | cons p rest ih =>
    by_cases hp : p.1 = k
    · simp [mapGet, hp]
    · simp [mapGet, hp, ih, Ne.symm hp]

lemma mapSet_keys_of_none (m : List (String × FlightOffer)) (k : String)
    (v : FlightOffer) (h : mapGet m k = none) :
    (mapSet m k v).map Prod.fst = m.map Prod.fst ++ [k] := by
  induction m with
  | nil => simp [mapSet]
  | cons p rest ih =>
    by_cases hp : p.1 = k
    · simp [mapGet, hp] at h
    · simp only [mapGet, if_neg hp] at h
      simp [mapSet, if_neg hp, ih h]

lemma mapSet_keys_of_some (m : List (String × FlightOffer)) (k : String)
    (v ex : FlightOffer) (h : mapGet m k = some ex) :
    (mapSet m k v).map Prod.fst = m.map Prod.fst := by
  induction m with
  | nil => simp [mapGet] at h
  | cons p rest ih =>
    by_cases hp : p.1 = k
    · simp [mapSet, if_pos hp, hp]
    · simp only [mapGet, if_neg hp] at h
      simp [mapSet, if_neg hp, ih h]

lemma mapGet_of_mem_nodup :
    ∀ {m : List (String × FlightOffer)} {k : String} {v : FlightOffer},
      (m.map Prod.fst).Nodup → (k, v) ∈ m → mapGet m k = some v := by
  intro m
  induction m with
  | nil => intro k v _ hmem; cases hmem
  | cons p rest ih =>
    intro k v hnd hmem
    rcases List.mem_cons.mp hmem with h | h
    · rw [← h]
      simp [mapGet]
    · have hk : p.1 ≠ k := by
        intro hpk
        have hin : k ∈ rest.map Prod.fst := List.mem_map_of_mem Prod.fst h
        rw [List.map_cons, List.nodup_cons] at hnd
        exact hnd.1 (hpk ▸ hin)
      have hnd2 : (rest.map Prod.fst).Nodup := by
        rw [List.map_cons, List.nodup_cons] at hnd
        exact hnd.2
      simp [mapGet, hk, ih hnd2 h]

lemma dedupeStep_entries {m : List (String × FlightOffer)}
    {f : Option FlightOffer} (hm : ∀ p ∈ m, p.1 = keyOf p.2) :
    ∀ p ∈ dedupeStep m f, p.1 = keyOf p.2 := by
  cases f with
  | none => exact hm
  | some f =>
    intro p hp
    simp only [dedupeStep] at hp
    split at hp
    · rcases mem_mapSet hp with h | h
      · rw [h]
      · exact hm p h
    · split_ifs at hp
      · rcases mem_mapSet hp with h | h
        · rw [h]
        · exact hm p h
      · exact hm p hp

lemma dedupeStep_nodup {m : List (String × FlightOffer)} {f : Option FlightOffer}
    (hnd : (m.map Prod.fst).Nodup) : ((dedupeStep m f).map Prod.fst).Nodup := by
  cases f with
  | none => exact hnd
  | some f =>
    simp only [dedupeStep]
    split
    · next hg =>
      rw [mapSet_keys_of_none m (keyOf f) f hg]
      have hnotin : keyOf f ∉ m.map Prod.fst := (mapGet_eq_none_iff m (keyOf f)).mp hg
      simp [List.nodup_append, hnd, hnotin]
    · next ex hg =>
      split_ifs
      · rw [mapSet_keys_of_some m (keyOf f) f ex hg]
        exact hnd
      · exact hnd

lemma mapGet_dedupeStep_self (m : List (String × FlightOffer)) (f : FlightOffer) :
    mapGet (dedupeStep m (some f)) (keyOf f) = stepOpt (mapGet m (keyOf f)) f := by
  simp only [dedupeStep]
  split
  · next hg =>
    rw [hg]
    simp [stepOpt, mapGet_mapSet_self]
  · next ex hg =>
    rw [hg]
    simp only [stepOpt]
    by_cases hc : (f.price.isFinite && jlt f.price ex.price) = true
    · rw [if_pos hc, mapGet_mapSet_self]
      simp [pickBetter, hc]
    · rw [if_neg hc, hg]
      simp only [pickBetter]
      rw [if_neg hc]

lemma mapGet_dedupeStep_ne (m : List (String × FlightOffer)) (f : FlightOffer)
    (k : String) (hk : k ≠ keyOf f) :
    mapGet (dedupeStep m (some f)) k = mapGet m k := by
  simp only [dedupeStep]
  split
  · exact mapGet_mapSet_ne m (keyOf f) k f hk
  · split_ifs
    · exact mapGet_mapSet_ne m (keyOf f) k f hk
    · rfl

lemma mapGet_foldl_dedupe (fs : List (Option FlightOffer)) :
    ∀ (m : List (String × FlightOffer)) (k : String),
      mapGet (fs.foldl dedupeStep m) k =
        ((fs.filterMap id).filter (fun f => keyOf f == k)).foldl stepOpt (mapGet m k) := by
  induction fs with
  | nil => intro m k; rfl
  | cons f fs ih =>
    intro m k
    cases f with
    | none => simpa using ih m k
    | some f =>
      by_cases hk : keyOf f = k
      · subst hk
        rw [List.foldl_cons, ih (dedupeStep m (some f)) (keyOf f),
          mapGet_dedupeStep_self]
        simp [List.filter_cons]
      · rw [List.foldl_cons, ih (dedupeStep m (some f)) k,
          mapGet_dedupeStep_ne m f k (Ne.symm hk)]
        simp [List.filter_cons, hk]

lemma foldl_stepOpt_some (g : List FlightOffer) :
    ∀ v, g.foldl stepOpt (some v) = some (g.foldl pickBetter v) := by
  induction g with
  | nil => intro v; rfl
  | cons f g ih => intro v; exact ih (pickBetter v f)

lemma jle_refl_of_finite {p : JNum} (h : p.isFinite = true) : jle p p = true := by
  cases p <;> simp_all [JNum.isFinite, jle]

lemma jle_of_jlt {a b : JNum} (h : jlt a b = true) : jle a b = true := by
  cases a <;> cases b <;> simp_all [jlt, jle] <;> linarith

lemma jle_trans {a b c : JNum} (h1 : jle a b = true) (h2 : jle b c = true) :
    jle a c = true := by
  cases a <;> cases b <;> cases c <;> simp_all [jle] <;> linarith

lemma jlt_of_jle_of_jlt {a b c : JNum} (h1 : jle a b = true) (h2 : jlt b c = true) :
    jlt a c = true := by
  cases a <;> cases b <;> cases c <;> simp_all [jle, jlt] <;> linarith

lemma jlt_of_jlt_of_jle {a b c : JNum} (h1 : jlt a b = true) (h2 : jle b c = true) :
    jlt a c = true := by
  cases a <;> cases b <;> cases c <;> simp_all [jle, jlt] <;> linarith

lemma jle_flip_of_not_jlt {a b : JNum} (ha : a.isFinite = true)
    (hb : b.isFinite = true) (h : jlt a b = false) : jle b a = true := by
  cases a <;> cases b <;> simp_all [JNum.isFinite, jlt, jle] <;> linarith

lemma foldl_pickBetter_split (t : List FlightOffer) :
    ∀ h : FlightOffer, h.price.isFinite = true →
      (∀ g ∈ t, g.price.isFinite = true) →
      ∃ pre post, h :: t = pre ++ (t.foldl pickBetter h) :: post ∧
        (∀ g ∈ h :: t, jle (t.foldl pickBetter h).price g.price = true) ∧
        (∀ g ∈ pre, jlt (t.foldl pickBetter h).price g.price = true) := by
  induction t with
  | nil =>
    intro h hh _
    refine ⟨[], [], rfl, ?_, by simp⟩
    intro g hg
    rw [List.mem_singleton.mp hg]
    exact jle_refl_of_finite hh
  | cons f t ih =>
    intro h hh hall
    have hf : f.price.isFinite = true := hall f (List.mem_cons_self f t)
    have hallt : ∀ g ∈ t, g.price.isFinite = true :=
      fun g hg => hall g (List.mem_cons_of_mem f hg)
    by_cases hc : (f.price.isFinite && jlt f.price h.price) = true
    · have hpb : pickBetter h f = f := by simp [pickBetter, hc]
      have hfh : jlt f.price h.price = true := ((Bool.and_eq_true _ _).mp hc).2
      obtain ⟨pre', post', heq, hmin, hpre⟩ := ih f hf hallt
      have hsf : jle ((f :: t).foldl pickBetter h).price f.price = true := by
        simp only [List.foldl_cons, hpb]
        exact hmin f (List.mem_cons_self f t)
      refine ⟨h :: pre', post', ?_, ?_, ?_⟩
      · simp only [List.foldl_cons, hpb, List.cons_append]
        rw [← heq]
      · intro g hg
        rcases List.mem_cons.mp hg with rfl | hg
        · exact jle_of_jlt (jlt_of_jle_of_jlt hsf hfh)
        · simp only [List.foldl_cons, hpb]
          exact hmin g hg
      · intro g hg
        rcases List.mem_cons.mp hg with rfl | hg
        · exact jlt_of_jle_of_jlt hsf hfh
        · simp only [List.foldl_cons, hpb]
          exact hpre g hg
    · have hpb : pickBetter h f = h := by
        simp only [pickBetter]
        rw [if_neg hc]
      have hc2 : jlt f.price h.price = false := by
        rcases Bool.eq_false_or_eq_true (jlt f.price h.price) with h2 | h2
        · exact absurd ((Bool.and_eq_true _ _).mpr ⟨hf, h2⟩) hc
        · exact h2
      have hhf : jle h.price f.price = true := jle_flip_of_not_jlt hf hh hc2
      obtain ⟨pre', post', heq, hmin, hpre⟩ := ih h hh hallt
      have hsh : jle (t.foldl pickBetter h).price h.price = true :=
        hmin h (List.mem_cons_self h t)
      cases pre' with
      | nil =>
        simp only [List.nil_append] at heq
        have hs : t.foldl pickBetter h = h := (List.cons.injEq _ _ _ _).mp heq |>.1.symm
        have hpost : post' = t := ((List.cons.injEq _ _ _ _).mp heq).2.symm
        refine ⟨[], f :: t, ?_, ?_, by simp⟩
        · simp only [List.foldl_cons, hpb, hs, List.nil_append]
        · intro g hg
          simp only [List.foldl_cons, hpb, hs]
          rcases List.mem_cons.mp hg with rfl | hg
          · exact jle_refl_of_finite hh
          rcases List.mem_cons.mp hg with rfl | hg
          · exact hhf
          · have := hmin g (List.mem_cons_of_mem h hg)
            rw [hs] at this
            exact this
      | cons p0 pre'' =>
        have hh0 : h = p0 := ((List.cons.injEq _ _ _ _).mp heq).1
        have ht : t = pre'' ++ (t.foldl pickBetter h) :: post' :=
          ((List.cons.injEq _ _ _ _).mp heq).2
        have hsh' : jlt (t.foldl pickBetter h).price h.price = true := by
          have hj := hpre p0 (List.mem_cons_self p0 pre'')
          rw [← hh0] at hj
          exact hj
        refine ⟨h :: f :: pre'', post', ?_, ?_, ?_⟩
        · simp only [List.foldl_cons, hpb, List.cons_append]
          rw [← ht]
        · intro g hg
          simp only [List.foldl_cons, hpb]
          rcases List.mem_cons.mp hg with rfl | hg
          · exact hmin g (List.mem_cons_self g t)
          rcases List.mem_cons.mp hg with rfl | hg
          · exact jle_trans hsh hhf
          · exact hmin g (List.mem_cons_of_mem h hg)
        · intro g hg
          simp only [List.foldl_cons, hpb]
          rcases List.mem_cons.mp hg with rfl | hg
          · exact hsh'
          rcases List.mem_cons.mp hg with rfl | hg
          · exact jlt_of_jlt_of_jle hsh' hhf
          · exact hpre g (List.mem_cons_of_mem p0 hg)

lemma mapGet_mem : ∀ {m : List (String × FlightOffer)} {k : String}
    {v : FlightOffer}, mapGet m k = some v → (k, v) ∈ m := by
  intro m
  induction m with
  | nil => intro k v h; cases h
  | cons p rest ih =>
    intro k v h
    by_cases hp : p.1 = k
    · simp only [mapGet, if_pos hp] at h
      injection h with h
      rw [← hp, ← h]
      exact List.mem_cons_self p rest
    · simp only [mapGet, if_neg hp] at h
      exact List.mem_cons_of_mem p (ih h)

lemma foldl_dedupe_entries (fs : List (Option FlightOffer)) :
    ∀ m, (∀ p ∈ m, p.1 = keyOf p.2) →
      ∀ p ∈ fs.foldl dedupeStep m, p.1 = keyOf p.2 := by
  induction fs with
  | nil => intro m hm; exact hm
  | cons f fs ih => intro m hm; exact ih _ (dedupeStep_entries hm)

lemma foldl_dedupe_nodup (fs : List (Option FlightOffer)) :
    ∀ m, (m.map Prod.fst).Nodup →
      ((fs.foldl dedupeStep m).map Prod.fst).Nodup := by
  induction fs with
  | nil => intro m hm; exact hm
  | cons f fs ih => intro m hm; exact ih _ (dedupeStep_nodup hm)

lemma mem_dedupeGroup {fs : List (Option FlightOffer)} {f : FlightOffer}
    {k : String} (hf : some f ∈ fs) (hk : keyOf f = k) :
    f ∈ dedupeGroup fs k := by
  simp only [dedupeGroup, List.mem_filter, List.mem_filterMap]
  exact ⟨⟨some f, hf, rfl⟩, by simp [hk]⟩

lemma dedupeGroup_mem {fs : List (Option FlightOffer)} {k : String}
    {x : FlightOffer} (h : x ∈ dedupeGroup fs k) :
    some x ∈ fs ∧ keyOf x = k := by
  simp only [dedupeGroup, List.mem_filter, List.mem_filterMap] at h
  obtain ⟨⟨a, ha, hax⟩, hkx⟩ := h
  refine ⟨?_, by simpa using hkx⟩
  rw [show a = some x from hax] at ha
  exact ha

lemma dedupeGroup_survivor (fs : List (Option FlightOffer)) (k : String) :
    (dedupeGroup fs k = [] ∧ mapGet (fs.foldl dedupeStep []) k = none) ∨
    ∃ h t, dedupeGroup fs k = h :: t ∧
      mapGet (fs.foldl dedupeStep []) k = some (t.foldl pickBetter h) := by
  have hchar := mapGet_foldl_dedupe fs [] k
  cases hg : dedupeGroup fs k with
  | nil =>
    left
    refine ⟨rfl, ?_⟩
    rw [hchar]
    rw [dedupeGroup] at hg
    rw [hg]
    rfl
  | cons h t =>
    right
    refine ⟨h, t, rfl, ?_⟩
    rw [hchar]
    rw [dedupeGroup] at hg
    rw [hg]
    show (h :: t).foldl stepOpt none = _
    rw [List.foldl_cons]
    exact foldl_stepOpt_some t h

/-- C1 (amended): for inputs whose offers all carry finite prices, the
Deduplicator keeps exactly one offer per dedup key (pairwise distinct keys
in the output, and every input key is represented), the survivor's price
is less than or equal to the price of every same-key input offer, and the
survivor is the first offer of its key group to attain the minimum (it is
strictly cheaper than everything before it in the group); the 200/180/210
scenario for carrier 6E flight 123 keeps exactly the offer priced 180.
With a non-finite price in the input the price-minimality clause can fail
(see the counterexample). -/
theorem dedupe_one_per_key_min_first (fs : List (Option FlightOffer))
    (hfin : ∀ f : FlightOffer, some f ∈ fs → f.price.isFinite = true) :
    List.Pairwise (fun a b => keyOf a ≠ keyOf b) (dedupeFlights fs) ∧
    (∀ f : FlightOffer, some f ∈ fs → ∃ g ∈ dedupeFlights fs, keyOf g = keyOf f) ∧
    (∀ g ∈ dedupeFlights fs, ∀ f : FlightOffer, some f ∈ fs → keyOf f = keyOf g →
        jle g.price f.price = true) ∧
    (∀ g ∈ dedupeFlights fs, ∃ pre post,
        dedupeGroup fs (keyOf g) = pre ++ g :: post ∧
        (∀ f ∈ pre, jlt g.price f.price = true)) ∧
    dedupeFlights [some (mkOffer (.fin 200)), some (mkOffer (.fin 180)),
        some (mkOffer (.fin 210))] = [mkOffer (.fin 180)] := by
  have hent : ∀ p ∈ fs.foldl dedupeStep [], p.1 = keyOf p.2 :=
    foldl_dedupe_entries fs [] (by simp)
  have hnd : ((fs.foldl dedupeStep []).map Prod.fst).Nodup :=
    foldl_dedupe_nodup fs [] (by simp)
  have houtget : ∀ g ∈ dedupeFlights fs,
      mapGet (fs.foldl dedupeStep []) (keyOf g) = some g := by
    intro g hg
    rcases List.mem_map.mp hg with ⟨p, hp, hps⟩
    have hk : p.1 = keyOf g := by rw [hent p hp, hps]
    have hpe : p = (keyOf g, g) := Prod.ext hk hps
    exact mapGet_of_mem_nodup hnd (hpe ▸ hp)
  have hfing : ∀ k, ∀ x ∈ dedupeGroup fs k, x.price.isFinite = true :=
    fun k x hx => hfin x (dedupeGroup_mem hx).1
  refine ⟨?_, ?_, ?_, ?_, by decide⟩
  · have hkeys : (fs.foldl dedupeStep []).map Prod.fst =
        (dedupeFlights fs).map keyOf := by
      calc (fs.foldl dedupeStep []).map Prod.fst
          = (fs.foldl dedupeStep []).map (fun p => keyOf p.2) :=
            List.map_congr_left hent
        _ = (dedupeFlights fs).map keyOf := by
            rw [dedupeFlights, List.map_map]
            rfl
    have hnd2 : ((dedupeFlights fs).map keyOf).Nodup := hkeys ▸ hnd
    exact List.pairwise_map.mp hnd2
  · intro f hf
    have hmemg : f ∈ dedupeGroup fs (keyOf f) := mem_dedupeGroup hf rfl
    rcases dedupeGroup_survivor fs (keyOf f) with ⟨hnil, _⟩ | ⟨h, t, hgrp, hget⟩
    · rw [hnil] at hmemg
      cases hmemg
    · have hmem : (keyOf f, t.foldl pickBetter h) ∈ fs.foldl dedupeStep [] :=
        mapGet_mem hget
      refine ⟨t.foldl pickBetter h, List.mem_map.mpr ⟨_, hmem, rfl⟩, ?_⟩
      exact (hent _ hmem).symm
  · intro g hg f hf hkey
    have hget := houtget g hg
    rcases dedupeGroup_survivor fs (keyOf g) with ⟨_, hnone⟩ | ⟨h, t, hgrp, hsget⟩
    · rw [hget] at hnone
      cases hnone
    · rw [hget] at hsget
      injection hsget with hs
      obtain ⟨pre, post, heq, hmin, hpre⟩ := foldl_pickBetter_split t h
        (hfing (keyOf g) h (hgrp ▸ List.mem_cons_self h t))
        (fun x hx => hfing (keyOf g) x (hgrp ▸ List.mem_cons_of_mem h hx))
      have hfg : f ∈ h :: t := hgrp ▸ mem_dedupeGroup hf hkey
      rw [hs]
      exact hmin f hfg
  · intro g hg
    have hget := houtget g hg
    rcases dedupeGroup_survivor fs (keyOf g) with ⟨_, hnone⟩ | ⟨h, t, hgrp, hsget⟩
    · rw [hget] at hnone
      cases hnone
    · rw [hget] at hsget
      injection hsget with hs
      obtain ⟨pre, post, heq, hmin, hpre⟩ := foldl_pickBetter_split t h
        (hfing (keyOf g) h (hgrp ▸ List.mem_cons_self h t))
        (fun x hx => hfing (keyOf g) x (hgrp ▸ List.mem_cons_of_mem h hx))
      refine ⟨pre, post, ?_, ?_⟩
      · rw [hgrp, hs]
        exact heq
      · intro x hx
        rw [hs]
        exact hpre x hx

/-- Witness for C1: the three-provider overlap scenario (prices 200, 180,
210 on the same key) deduplicates to the single offer priced 180. -/
theorem dedupe_one_per_key_min_first_witness :
    dedupeFlights [some (mkOffer (.fin 200)), some (mkOffer (.fin 180)),
        some (mkOffer (.fin 210))] = [mkOffer (.fin 180)] :=
  (dedupe_one_per_key_min_first
    [some (mkOffer (.fin 200)), some (mkOffer (.fin 180)),
      some (mkOffer (.fin 210))]
    (by
      intro f hf
      simp only [List.mem_cons] at hf
      rcases hf with h | h | h <;> simp at h <;> subst h <;> rfl)).2.2.2.2

/-- Counterexample for C1: a NaN-priced offer seen first survives over a
same-key offer priced 100, because a finite price never compares
strictly below NaN; the surviving price is not less than or equal to the
discarded one. -/
theorem dedupe_nan_first_survives :
    dedupeFlights [some (mkOffer JNum.nan), some (mkOffer (.fin 100))] =
      [mkOffer JNum.nan] ∧
    jle (mkOffer JNum.nan).price (mkOffer (.fin 100)).price = false := by
  constructor
  · decide
  · decide

/-- C7 (amended): the Deduplicator applies no price-validity filter.  In
any input, whatever the prices, every dedup key present in the input is
represented in the output, and an offer whose price is not a finite
number strictly greater than zero itself appears in the output whenever
it is the only input offer carrying its dedup key.  The finiteness check
only stops a non-finitely-priced incoming offer from replacing the
stored offer of its key; a stored invalid-priced offer can still be
replaced by a strictly cheaper finitely-priced one, as the last conjunct
shows for an Infinity-priced first offer. -/
theorem dedupe_invalid_price_policy :
    (∀ (fs : List (Option FlightOffer)) (f : FlightOffer),
        dedupeGroup fs (keyOf f) = [f] → f ∈ dedupeFlights fs) ∧
    (∀ (fs : List (Option FlightOffer)) (f : FlightOffer), some f ∈ fs →
        ∃ g ∈ dedupeFlights fs, keyOf g = keyOf f) ∧
    (∀ (m : List (String × FlightOffer)) (f : FlightOffer),
        f.price.isFinite = false → (mapGet m (keyOf f)).isSome = true →
        dedupeStep m (some f) = m) ∧
    dedupeFlights [some (mkOffer JNum.posInf), some (mkOffer (.fin 100))] =
      [mkOffer (.fin 100)] := by
  refine ⟨?_, ?_, ?_, by decide⟩
  · intro fs f h1
    rcases dedupeGroup_survivor fs (keyOf f) with ⟨hnil, _⟩ | ⟨h, t, hgrp, hget⟩
    · rw [h1] at hnil
      cases hnil
    · rw [h1] at hgrp
      injection hgrp with hh ht
      subst hh
      rw [← ht, List.foldl_nil] at hget
      exact List.mem_map.mpr ⟨_, mapGet_mem hget, rfl⟩
  · intro fs f hf
    have hmemg : f ∈ dedupeGroup fs (keyOf f) := mem_dedupeGroup hf rfl
    rcases dedupeGroup_survivor fs (keyOf f) with ⟨hnil, _⟩ | ⟨h, t, hgrp, hget⟩
    · rw [hnil] at hmemg
      cases hmemg
    · have hent : ∀ p ∈ fs.foldl dedupeStep [], p.1 = keyOf p.2 :=
        foldl_dedupe_entries fs [] (by simp)
      have hmem : (keyOf f, t.foldl pickBetter h) ∈ fs.foldl dedupeStep [] :=
        mapGet_mem hget
      exact ⟨t.foldl pickBetter h, List.mem_map.mpr ⟨_, hmem, rfl⟩,
        (hent _ hmem).symm⟩
  · intro m f hninf hsome
    simp only [dedupeStep]
    split
    · next hg =>
      rw [hg] at hsome
      cases hsome
    · next ex hg =>
      rw [if_neg (by simp [hninf])]

/-- Witness for C7: the zero-priced offer, alone on its key, appears in
the output, and a NaN offer does not replace the stored offer of its
key. -/
theorem dedupe_invalid_price_policy_witness :
    mkOffer (.fin 0) ∈ dedupeFlights [some (mkOffer (.fin 0))] ∧
    dedupeStep [(keyOf (mkOffer JNum.nan), mkOffer (.fin 100))]
        (some (mkOffer JNum.nan)) =
      [(keyOf (mkOffer JNum.nan), mkOffer (.fin 100))] := by
  constructor
  · exact dedupe_invalid_price_policy.1 [some (mkOffer (.fin 0))]
      (mkOffer (.fin 0)) (by decide)
  · exact dedupe_invalid_price_policy.2.2.1 _ (mkOffer JNum.nan) (by decide)
      (by decide)

/-- Counterexample for C7: an offer priced 0 (not strictly positive) is
the only offer for its key and still appears in the Deduplicator output,
so invalid-priced offers are not filtered out. -/
theorem dedupe_keeps_zero_price :
    dedupeFlights [some (mkOffer (.fin 0))] = [mkOffer (.fin 0)] ∧
    (mkOffer (.fin 0)).price = JNum.fin 0 ∧
    (dedupeFlights [some (mkOffer (.fin 0))] == ([] : List FlightOffer)) = false := by
  refine ⟨by decide, rfl, by decide⟩
